import Mathlib

/-!
Verification development for the JettBot voice pipeline.

The definitions below shallowly embed the pipeline code:
text is `List Char`, audio frames are their RMS loudness as rationals,
time is rational, and the `run()` control loop of `VoicePipeline` is a
small-step machine driven by an explicit input oracle.
-/

/-- Whitespace predicate matching Python's notion of whitespace
(space, tab, newline, carriage return, vertical tab, form feed). -/
def pyIsSpace (c : Char) : Bool :=
  c == ' ' || c == '\t' || c == '\n' || c == '\r' || c == Char.ofNat 11 || c == Char.ofNat 12

/-- Python `str.strip()`: remove leading and trailing whitespace. -/
def pyStrip (s : List Char) : List Char :=
  ((s.dropWhile pyIsSpace).reverse.dropWhile pyIsSpace).reverse

/-- Terminal sentence punctuation, the character class of the flush regex in
`VoicePipeline.speak_streaming`. -/
def isTermPunct (c : Char) : Bool :=
  c == '.' || c == '!' || c == '?'

/-- Whether the regex search for a terminal punctuation character followed only
by whitespace up to the end of the string succeeds on `s`. -/
def endsSentence (s : List Char) : Bool :=
  match s.reverse.dropWhile pyIsSpace with
  | [] => false
  | c :: _ => isTermPunct c

/-- Index of the last comma in `s`, mirroring Python `str.rfind(',')`
(`none` plays the role of the sentinel `-1`). -/
def lastCommaIdx : List Char → Option Nat
  | [] => none
  | c :: rest =>
    match lastCommaIdx rest with
    | some i => some (i + 1)
    | none => if c == ',' then some 0 else none

/-- Minimum characters before the first early synthesis flush
(`MIN_FIRST_CHUNK` in `speak_streaming`). -/
def MIN_FIRST_CHUNK : Nat := 20

/-- The split index chosen by the eager first-flush rule: the last comma,
replaced by the whole buffer length when there is no comma or the comma
sits at index below 10. -/
def splitIdx (b : List Char) : Nat :=
  match lastCommaIdx b with
  | none => b.length
  | some j => if j < 10 then b.length else j

/-- Accumulator state of `speak_streaming`: the pending text buffer, the
`first_chunk_sent` flag, and the SpeakableUnits flushed so far in order. -/
structure SynthSt where
  buffer : List Char
  firstSent : Bool
  flushed : List (List Char)
deriving DecidableEq

/-- One iteration of the fragment loop of `VoicePipeline.speak_streaming`:
append the fragment, flush the whole buffer on terminal punctuation, else
apply the eager first-flush rule while no unit has been flushed yet. -/
def synthStep (st : SynthSt) (chunk : List Char) : SynthSt :=
  let b := st.buffer ++ chunk
  if endsSentence b = true then
    if pyStrip b = [] then ⟨[], st.firstSent, st.flushed⟩
    else ⟨[], true, st.flushed ++ [pyStrip b]⟩
  else if st.firstSent = false ∧ MIN_FIRST_CHUNK ≤ b.length then
    if b.contains ',' = true ∨ 40 ≤ b.length then
      if pyStrip (b.take (splitIdx b)) = [] then ⟨b, st.firstSent, st.flushed⟩
      else ⟨pyStrip ((b.drop (splitIdx b)).dropWhile (fun c => c == ',')),
            true, st.flushed ++ [pyStrip (b.take (splitIdx b))]⟩
    else ⟨b, st.firstSent, st.flushed⟩
  else ⟨b, st.firstSent, st.flushed⟩

/-- Final flush of `speak_streaming`: any non-whitespace remainder becomes a
last SpeakableUnit. -/
def synthFinish (st : SynthSt) : List (List Char) :=
  if pyStrip st.buffer = [] then st.flushed else st.flushed ++ [pyStrip st.buffer]

/-- The ordered sequence of SpeakableUnits `speak_streaming` hands to the
synthesis engine when it consumes the given fragment sequence. -/
def speakUnits (chunks : List (List Char)) : List (List Char) :=
  synthFinish (chunks.foldl synthStep ⟨[], false, []⟩)

/-- Detection threshold default of `WakeWordDetector` (0.5). -/
def DEFAULT_THRESHOLD : ℚ := 1/2

/-- Cooldown between wake triggers in seconds (`COOLDOWN_SECONDS` = 2.0). -/
def COOLDOWN_SECONDS : ℚ := 2

/-- Mutable state of `WakeWordDetector` relevant to triggering:
`_last_trigger_time`, initialised to 0.0. -/
structure WakeSt where
  lastTrigger : ℚ
deriving DecidableEq

/-- The trigger logic of `WakeWordDetector._audio_callback` on one scored frame
`(now, score)`: above-threshold scores inside the cooldown window are silently
suppressed, otherwise the trigger time is stored and `on_wake` is invoked
(the returned `some now` records that invocation). -/
def wakeCallback (threshold : ℚ) (st : WakeSt) (frame : ℚ × ℚ) : WakeSt × Option ℚ :=
  if threshold < frame.2 then
    if frame.1 - st.lastTrigger < COOLDOWN_SECONDS then (st, none)
    else ({ lastTrigger := frame.1 }, some frame.1)
  else (st, none)

/-- Times at which `on_wake` fires when the detector scores the given frame
sequence from state `st`. -/
def wakeCalls (threshold : ℚ) (st : WakeSt) : List (ℚ × ℚ) → List ℚ
  | [] => []
  | f :: rest =>
    match wakeCallback threshold st f with
    | (st', none) => wakeCalls threshold st' rest
    | (st', some t) => t :: wakeCalls threshold st' rest

/-- Audio constants of `VoicePipeline` as exact rationals. -/
def SAMPLE_RATE : ℚ := 16000

/-- Block size of the recording stream (`BLOCK_SIZE`). -/
def BLOCK_SIZE : ℚ := 1024

/-- RMS threshold for silence (`SILENCE_THRESHOLD` = 0.005). -/
def SILENCE_THRESHOLD : ℚ := 1/200

/-- Seconds of silence that end a recording (`SILENCE_DURATION` = 0.5). -/
def SILENCE_DURATION : ℚ := 1/2

/-- Maximum recording length in seconds (`MAX_RECORD_SECONDS`). -/
def MAX_RECORD_SECONDS : ℚ := 30

/-- Count of consecutive silent chunks that ends a recording:
`int(SILENCE_DURATION * chunks_per_second)` with
`chunks_per_second = SAMPLE_RATE / BLOCK_SIZE`. -/
def silenceChunksNeeded (D R B : ℚ) : ℕ := (⌊D * (R / B)⌋).toNat

/-- Loop state of `VoicePipeline.record_audio`: `chunk_count`,
`silence_chunks` and `has_speech`. -/
structure RecSt where
  cnt : ℕ
  silence : ℕ
  speech : Bool
deriving DecidableEq

/-- The chunk loop of `record_audio` over the queued frame RMS values:
consume frames while under the chunk cap, reset the silence run on speech,
and stop once speech has been heard followed by a full silence run.
Returns the final loop state and the chunks accumulated, in order. -/
def recGo (thr : ℚ) (needed maxChunks : ℕ) : RecSt → List ℚ → RecSt × List ℚ
  | st, [] => (st, [])
  | st, rms :: rest =>
    if maxChunks ≤ st.cnt then (st, [])
    else
      let st' : RecSt :=
        if thr < rms then ⟨st.cnt + 1, 0, true⟩
        else ⟨st.cnt + 1, st.silence + 1, st.speech⟩
      if st'.speech = true ∧ needed ≤ st'.silence then (st', [rms])
      else
        let r := recGo thr needed maxChunks st' rest
        (r.1, rms :: r.2)

/-- Result of `VoicePipeline.record_audio` on a frame sequence: `none`
("no speech") when no frame exceeded the threshold or fewer than 5 chunks
were captured, otherwise the concatenated utterance chunks. -/
def record_audio (thr : ℚ) (needed maxChunks : ℕ) (frames : List ℚ) : Option (List ℚ) :=
  let r := recGo thr needed maxChunks ⟨0, 0, false⟩ frames
  if r.1.speech = false ∨ r.2.length < 5 then none else some r.2

/-- Word-constituent characters, the `\w` class of the router regexes
(ASCII letters, digits and underscore). -/
def isWordChar (c : Char) : Bool :=
  c.isAlpha || c.isDigit || c == '_'

/-- Left word-boundary check: the previous character (if any) is not a word
character. -/
def boundL (prev : Option Char) : Bool :=
  match prev with
  | none => true
  | some c => !isWordChar c

/-- Right word-boundary check at the remainder after a matched literal. -/
def boundR (rest : List Char) : Bool :=
  match rest with
  | [] => true
  | c :: _ => !isWordChar c

/-- Search for the literal `pat` occurring with word boundaries on both sides
somewhere in the scanned text; `prev` is the character just before the scan
position. -/
def findWord (pat : List Char) : Option Char → List Char → Bool
  | prev, [] => boundL prev && pat.isPrefixOf ([] : List Char) && boundR []
  | prev, c :: rest =>
    (boundL prev && pat.isPrefixOf (c :: rest) && boundR ((c :: rest).drop pat.length))
      || findWord pat (some c) rest

/-- Whether a `\b...\b`-delimited literal pattern matches anywhere in `s`. -/
def hasWord (pat : String) (s : List Char) : Bool :=
  findWord pat.toList none s

/-- The anchored yes-no pattern of the router: one of the listed words at the
start of the text followed only by whitespace or `.`, `!`, `?`. -/
def yesNoExact (s : List Char) : Bool :=
  ["yes", "no", "yeah", "nah", "sure", "okay", "ok"].any fun w =>
    w.toList.isPrefixOf s && (s.drop w.toList.length).all fun c =>
      pyIsSpace c || c == '.' || c == '!' || c == '?'

/-- Match results of the 20 `CLOUD_PATTERNS` of `src/llm/router.py` on a
(lower-cased) text, one Boolean per pattern; the optional-suffix patterns
`analyz[es]?` and `summariz[es]?` are expanded into their three literal
alternatives. -/
def cloudFlags (s : List Char) : List Bool :=
  [hasWord "why" s, hasWord "explain" s, hasWord "compare" s,
   hasWord "analyz" s || hasWord "analyze" s || hasWord "analyzs" s,
   hasWord "difference between" s, hasWord "pros and cons" s,
   hasWord "write" s, hasWord "create" s, hasWord "compose" s, hasWord "draft" s,
   hasWord "summariz" s || hasWord "summarize" s || hasWord "summarizs" s,
   hasWord "how would" s, hasWord "what if" s, hasWord "help me" s,
   hasWord "step by step" s, hasWord "walk me through" s,
   hasWord "debug" s, hasWord "refactor" s, hasWord "implement" s, hasWord "architect" s]

/-- Match results of the 16 `LOCAL_PATTERNS` on a (lower-cased) text. -/
def localFlags (s : List Char) : List Bool :=
  [hasWord "what time" s, hasWord "what day" s, hasWord "what date" s,
   hasWord "what is" s, hasWord "who is" s, hasWord "where is" s,
   hasWord "define" s,
   hasWord "timer" s, hasWord "remind" s, hasWord "alarm" s,
   hasWord "play" s, hasWord "stop" s, hasWord "pause" s, hasWord "volume" s,
   hasWord "hello" s || hasWord "hi" s || hasWord "hey" s || hasWord "thanks" s
     || hasWord "thank you" s || hasWord "good morning" s || hasWord "good night" s,
   yesNoExact s]

/-- Whether some cloud pattern matches. -/
def anyCloudMatch (s : List Char) : Bool := (cloudFlags s).any id

/-- Whether some local pattern matches. -/
def anyLocalMatch (s : List Char) : Bool := (localFlags s).any id

/-- Number of matching cloud patterns (`cloud_signals` in `classify`). -/
def cloudSignals (s : List Char) : ℕ := (cloudFlags s).count true

/-- Number of words of a text, Python `len(text.split())`: the count of
maximal whitespace-free runs. -/
def countWordsAux : Bool → List Char → ℕ
  | _, [] => 0
  | inWord, c :: rest =>
    if pyIsSpace c then countWordsAux false rest
    else (if inWord then 0 else 1) + countWordsAux true rest

/-- Word count of a text. -/
def wordCount (s : List Char) : ℕ := countWordsAux false s

/-- Word-count thresholds of the router. -/
def SHORT_QUERY_WORDS : ℕ := 12

/-- Queries at or above this length lean cloud (`LONG_QUERY_WORDS`). -/
def LONG_QUERY_WORDS : ℕ := 25

/-- The routing classifier `classify` of `src/llm/router.py`: strip the text,
send empty and short non-cloud texts local, then check local patterns before
cloud patterns, and finally fall back on query length. Case-insensitive
matching is embedded by lower-casing the stripped text. -/
def classify (text : List Char) : String :=
  let t := pyStrip text
  if t = [] then "local"
  else
    let lt := t.map Char.toLower
    let wc := wordCount t
    if wc ≤ 5 then
      if anyCloudMatch lt then "cloud" else "local"
    else if anyLocalMatch lt then "local"
    else if 1 ≤ cloudSignals lt then "cloud"
    else if LONG_QUERY_WORDS ≤ wc then "cloud"
    else "local"

/-- The `QueryRouter` of `src/llm/router.py`: a mode plus the two optional
backend streaming functions (a `none` function mirrors an unconfigured
backend, `None` in the source). A backend function maps a prompt to its
stream of response fragments. -/
structure QueryRouter where
  mode : String
  localFn : Option (List Char → List (List Char))
  cloudFn : Option (List Char → List (List Char))

/-- The private decision method of `QueryRouter`: fixed modes short-circuit,
hybrid mode defers to `classify`. -/
def QueryRouter.decideBackend (r : QueryRouter) (text : List Char) : String :=
  if r.mode = "local" then "local"
  else if r.mode = "cloud" then "cloud"
  else classify text

/-- The streaming entry point `QueryRouter.route`: use the cloud function when
the decision is cloud and it is configured, otherwise use the local function;
`none` is the raised `TypeError` when the local function is absent. -/
def QueryRouter.route (r : QueryRouter) (text : List Char) : Option (List (List Char)) :=
  match r.decideBackend text, r.cloudFn with
  | "cloud", some g => some (g text)
  | _, _ =>
    match r.localFn with
    | some f => some (f text)
    | none => none

/-- The `PipelineState` enumeration of `src/voice/pipeline.py`. -/
inductive PipState where
  | WAITING
  | LISTENING
  | PROCESSING
  | SPEAKING
deriving DecidableEq

/-- Program points of the `VoicePipeline.run` control loop, at the
granularity of its observable side effects. `top` is the loop head;
`wokeA` sits between `pause()` and the switch to `LISTENING`; `recording`
is inside `record_audio` with the input stream open; `recNone1` sits between
`resume()` and the switch back to `WAITING` on the no-speech path; `preProc`
is after the switch to `PROCESSING` and before `process_query` starts;
`processing` is inside `process_query`; `caught` is the reporting `except`
block; `finEnter` is the start of the `finally` block; `finRes` sits between
`resume()` and the switch back to `WAITING` there; `done` is after the
`KeyboardInterrupt` handler has run and `run()` has returned. -/
inductive Loc where
  | top
  | wokeA
  | recording
  | recNone1
  | preProc
  | processing
  | caught
  | finEnter
  | finRes
  | done
deriving DecidableEq

/-- Control state of the pipeline visible to the two frame consumers:
the loop location, `_state`, `_running`, the wake-word configuration flag,
the detector `_active` event, the detector stream, and whether the recording
input stream of `record_audio` is open. -/
structure Core where
  loc : Loc
  st : PipState
  running : Bool
  useWake : Bool
  wakeActive : Bool
  wakeStream : Bool
  recOpen : Bool
deriving DecidableEq

/-- Oracle inputs resolving the environment choices of one loop step:
the outcome of the bounded wait on the wake event, the outcome of
`record_audio`, the outcome of `process_query`, the playback worker marking
`SPEAKING`, a `KeyboardInterrupt`, and a neutral tick driving the steps that
need no choice. -/
inductive Input where
  | wake (fired : Bool)
  | record (speech : Bool)
  | proc (ok : Bool)
  | speak
  | intr
  | tick
deriving DecidableEq

/-- Effect of the `KeyboardInterrupt` handler at the end of `run`: stop the
loop, unwind (closing any open recording stream) and stop the wake detector
stream; the detector `_active` event is left untouched. -/
def shutdown (c : Core) : Core :=
  { c with loc := .done, running := false, recOpen := false, wakeStream := false }

/-- Behaviour at the loop head: an interrupt ends the loop; in `WAITING` the
loop blocks on the wake event and on a trigger pauses the detector; in
`LISTENING` it opens the recording stream; otherwise it sleeps. -/
def atTop (c : Core) (i : Input) : Core :=
  match i with
  | .intr => shutdown c
  | .wake fired =>
    if c.st = .WAITING then
      if fired then { c with loc := .wokeA, wakeActive := false } else c
    else if c.st = .LISTENING then { c with loc := .recording, recOpen := true }
    else c
  | _ =>
    if c.st = .LISTENING then { c with loc := .recording, recOpen := true } else c

/-- Behaviour inside `record_audio`: an interrupt unwinds the stream context
and ends the loop; a completed recording closes the stream and either moves
towards `process_query` or, on the no-speech path, resumes the detector
before the switch back to `WAITING` (no-wake mode just keeps listening). -/
def atRecording (c : Core) (i : Input) : Core :=
  match i with
  | .intr => shutdown c
  | .record speech =>
    if speech then { c with loc := .preProc, recOpen := false }
    else if c.useWake then { c with loc := .recNone1, recOpen := false, wakeActive := true }
    else { c with loc := .top, recOpen := false }
  | _ => c

/-- Behaviour inside `process_query`: the playback worker may mark the state
`SPEAKING`; completion enters the `finally` block, an exception enters the
reporting `except` block first. -/
def atProcessing (c : Core) (i : Input) : Core :=
  match i with
  | .proc ok => if ok then { c with loc := .finEnter } else { c with loc := .caught }
  | .speak => { c with st := .SPEAKING }
  | _ => c

/-- Small-step transition of the `run` loop on `Core`. Each case mirrors one
observable action of the source; inputs that a location does not consume
leave the state unchanged (the thread is merely waiting). -/
def coreStep (c : Core) (i : Input) : Core :=
  match c.loc with
  | .done => c
  | .top => atTop c i
  | .wokeA => { c with loc := .top, st := .LISTENING }
  | .recording => atRecording c i
  | .recNone1 => { c with loc := .top, st := .WAITING }
  | .preProc => { c with loc := .processing, st := .PROCESSING }
  | .processing => atProcessing c i
  | .caught => { c with loc := .finEnter }
  | .finEnter =>
    if c.useWake then { c with loc := .finRes, wakeActive := true }
    else { c with loc := .top, st := .LISTENING }
  | .finRes => { c with loc := .top, st := .WAITING }

/-- Full machine state: the control core plus a ghost counter of how many
times `transcribe` has been invoked (it is called unconditionally at the
start of `process_query`). -/
structure MState where
  core : Core
  transcripts : ℕ
deriving DecidableEq

/-- One step of the machine: advance the core and count a transcription
whenever `process_query` is entered. -/
def stepM (s : MState) (i : Input) : MState :=
  ⟨coreStep s.core i, s.transcripts + (if s.core.loc = Loc.preProc then 1 else 0)⟩

/-- Run the machine over a list of oracle inputs. -/
def drive (s : MState) (l : List Input) : MState :=
  l.foldl stepM s

/-- Initial state of `run()`: with wake-word gating the detector stream is
started active and the pipeline waits for the wake word; without it the
pipeline starts listening and no detector exists. -/
def minit (useWake : Bool) : MState :=
  ⟨⟨.top, if useWake then .WAITING else .LISTENING, true, useWake, true, useWake, false⟩, 0⟩

/-- A machine state is reachable when some run of `run()` from one of the two
initial configurations produces it. -/
def Reachable (s : MState) : Prop :=
  ∃ (useWake : Bool) (l : List Input), drive (minit useWake) l = s

/-- Control-state invariant of the `run` loop: the detector stream is open
exactly while the loop is live in wake mode; the recording stream is open
exactly inside `record_audio`, and then the pipeline is in `LISTENING`;
the detector is paused at every location from the wake transition up to the
`finally` resume; and the loop runs until the interrupt handler ends it. -/
def invB (c : Core) : Bool :=
  (c.wakeStream == (c.useWake && !(c.loc == Loc.done))) &&
  (c.recOpen == (c.loc == Loc.recording)) &&
  (!(c.loc == Loc.recording) || c.st == PipState.LISTENING) &&
  (!(c.useWake && (c.loc == Loc.wokeA || (c.loc == Loc.top && c.st == PipState.LISTENING)
      || c.loc == Loc.recording || c.loc == Loc.preProc || c.loc == Loc.processing
      || c.loc == Loc.caught || c.loc == Loc.finEnter)) || !c.wakeActive) &&
  (c.running == !(c.loc == Loc.done))

/-- A configured cloud streaming function used in concrete router runs. -/
def c3CloudStream : List Char → List (List Char) := fun _ => ["ok".toList]

/-- A configured local streaming function used in concrete router runs. -/
def c3LocalStream : List Char → List (List Char) := fun _ => ["done".toList]

/-- A router whose decision is local but whose local function is absent while
the cloud function is configured. -/
def c3Router : QueryRouter := ⟨"local", none, some c3CloudStream⟩

/-- A hybrid router with only the local backend configured. -/
def c3Hybrid : QueryRouter := ⟨"hybrid", some c3LocalStream, none⟩

/-- The reachable machine state on the no-speech path after `resume()` has
run but before `_state` is switched back to `WAITING`. -/
def pausedResumeGap : MState :=
  drive (minit true) [Input.wake true, Input.tick, Input.tick, Input.record false]

/-- A reachable machine state inside `process_query`. -/
def procReach : MState :=
  drive (minit true) [Input.wake true, Input.tick, Input.tick, Input.record true, Input.tick]

/-- A reachable machine state recording in `LISTENING`, about to be
interrupted. -/
def listenAbort : MState :=
  drive (minit true) [Input.wake true, Input.tick, Input.tick]

/-- The machine state after the interrupt lands during `LISTENING`. -/
def listenAbortEnd : MState := stepM listenAbort Input.intr

set_option maxHeartbeats 8000000 in
/-- Preservation of the control-state invariant by every step. -/
lemma invB_step (c : Core) (i : Input) (h : invB c = true) : invB (coreStep c i) = true := by
  obtain ⟨loc, st, run, uw, wa, ws, ro⟩ := c
  rcases i with (_|_) | (_|_) | (_|_) | _ | _ | _ <;>
    cases loc <;> cases st <;> cases run <;> cases uw <;> cases wa <;> cases ws <;> cases ro <;>
    first
      | exact absurd h (by decide)
      | decide

/-- The invariant holds along every driven run. -/
lemma invB_drive (l : List Input) (s : MState) (h : invB s.core = true) :
    invB (drive s l).core = true := by
  induction l generalizing s with
  | nil => exact h
  | cons i l ih => exact ih (stepM s i) (invB_step s.core i h)

/-- Every reachable state satisfies the control-state invariant. -/
lemma invB_reachable (s : MState) (h : Reachable s) : invB s.core = true := by
  obtain ⟨u, l, rfl⟩ := h
  exact invB_drive l (minit u) (by cases u <;> decide)

lemma wakeCalls_below (threshold : ℚ) (st : WakeSt) (frames : List (ℚ × ℚ))
    (h : ∀ f ∈ frames, ¬ threshold < f.2) : wakeCalls threshold st frames = [] := by
  induction frames generalizing st with
  | nil => rfl
  | cons f rest ih =>
    have hf := h f (List.mem_cons_self _ _)
    simp only [wakeCalls, wakeCallback, if_neg hf]
    exact ih st fun x hx => h x (List.mem_cons_of_mem _ hx)

lemma wakeCalls_one_suppressed (threshold : ℚ) (frames : List (ℚ × ℚ)) (t2 s2 : ℚ) :
    ∀ st : WakeSt,
      frames.filter (fun f => decide (threshold < f.2)) = [(t2, s2)] →
      t2 - st.lastTrigger < COOLDOWN_SECONDS →
      wakeCalls threshold st frames = [] := by
  induction frames with
  | nil => intro st h _; simp at h
  | cons f rest ih =>
    intro st h hcd
    by_cases hf : threshold < f.2
    · rw [List.filter_cons_of_pos (by simpa using hf)] at h
      obtain ⟨hf2, hrest⟩ := List.cons_eq_cons.mp h
      subst hf2
      simp only [wakeCalls, wakeCallback, if_pos hf, if_pos hcd]
      exact wakeCalls_below threshold st rest
        fun x hx => by simpa using List.filter_eq_nil_iff.mp hrest x hx
    · rw [List.filter_cons_of_neg (by simpa using hf)] at h
      simp only [wakeCalls, wakeCallback, if_neg hf]
      exact ih st h hcd

/-- C7: a frame sequence whose above-threshold frames are exactly two frames
separated by less than the cooldown produces exactly one `on_wake` call, at
the first of the two trigger times; the second trigger is silently dropped.
The suppression condition compares against the last trigger time only, so it
is independent of how far the frames sit from stream start. -/
theorem wake_cooldown_single_trigger
    (threshold : ℚ) (frames : List (ℚ × ℚ)) (t1 s1 t2 s2 : ℚ)
    (hfil : frames.filter (fun f => decide (threshold < f.2)) = [(t1, s1), (t2, s2)])
    (hfirst : COOLDOWN_SECONDS ≤ t1)
    (hgap : t2 - t1 < COOLDOWN_SECONDS) :
    wakeCalls threshold ⟨0⟩ frames = [t1] := by
  induction frames with
  | nil => simp at hfil
  | cons f rest ih =>
    by_cases hf : threshold < f.2
    · rw [List.filter_cons_of_pos (by simpa using hf)] at hfil
      obtain ⟨hf1, hrest⟩ := List.cons_eq_cons.mp hfil
      subst hf1
      have hno : ¬ t1 - (⟨0⟩ : WakeSt).lastTrigger < COOLDOWN_SECONDS := by
        simp only [sub_zero]; exact not_lt.mpr hfirst
      simp only [wakeCalls, wakeCallback, if_pos hf, if_neg hno]
      rw [wakeCalls_one_suppressed threshold rest t2 s2 ⟨t1⟩ hrest (by simpa using hgap)]
    · rw [List.filter_cons_of_neg (by simpa using hf)] at hfil
      simp only [wakeCalls, wakeCallback, if_neg hf]
      exact ih hfil

/-- Witness for the cooldown theorem at two concrete frames half a second
apart with the default threshold. -/
theorem wake_cooldown_single_trigger_witness :
    wakeCalls DEFAULT_THRESHOLD ⟨0⟩ [(5, 1), (11/2, 1)] = [5] :=
  wake_cooldown_single_trigger DEFAULT_THRESHOLD [(5, 1), (11/2, 1)] 5 1 (11/2) 1
    (by norm_num [DEFAULT_THRESHOLD])
    (by norm_num [COOLDOWN_SECONDS])
    (by norm_num [COOLDOWN_SECONDS])
lemma recGo_no_speech (thr : ℚ) (needed maxChunks : ℕ) :
    ∀ (frames : List ℚ) (st : RecSt),
      st.speech = false → (∀ x ∈ frames, x ≤ thr) →
      (recGo thr needed maxChunks st frames).1.speech = false := by
  intro frames
  induction frames with
  | nil => intro st h _; exact h
  | cons rms rest ih =>
    intro st hsp hall
    have hrms : ¬ thr < rms := not_lt.mpr (hall rms (List.mem_cons_self _ _))
    by_cases hm : maxChunks ≤ st.cnt
    · simp only [recGo, if_pos hm]; exact hsp
    · simp only [recGo, if_neg hm, if_neg hrms]
      by_cases hstop : st.speech = true ∧ needed ≤ st.silence + 1
      · exact absurd hstop.1 (by simp [hsp])
      · simp only [if_neg hstop]
        exact ih ⟨st.cnt + 1, st.silence + 1, st.speech⟩ hsp
          fun x hx => hall x (List.mem_cons_of_mem _ hx)

/-- C9: `record_audio` reports "no speech" (`None`) whenever no frame ever
exceeds the energy threshold — even if the loop only ends because the
maximum-duration chunk cap elapses — and likewise whenever fewer than 5
chunks were captured. -/
theorem no_speech_reports_none
    (thr : ℚ) (needed maxChunks : ℕ) (frames : List ℚ)
    (h : (∀ x ∈ frames, x ≤ thr)
        ∨ (recGo thr needed maxChunks ⟨0, 0, false⟩ frames).2.length < 5) :
    record_audio thr needed maxChunks frames = none := by
  unfold record_audio
  rcases h with hall | hlen
  · have := recGo_no_speech thr needed maxChunks frames ⟨0, 0, false⟩ rfl hall
    rw [if_pos (Or.inl (by simp [this]))]
  · rw [if_pos (Or.inr hlen)]

/-- Witness: 470 all-silent chunks (the 30 s cap at 468 chunks elapses with
no speech) produce the distinguished `none` result. -/
theorem no_speech_reports_none_witness :
    record_audio SILENCE_THRESHOLD 7 468 (List.replicate 470 0) = none :=
  no_speech_reports_none SILENCE_THRESHOLD 7 468 (List.replicate 470 0)
    (Or.inl fun x hx => by
      rw [List.eq_of_mem_replicate hx]; norm_num [SILENCE_THRESHOLD])

/-- C10: the classifier checks its pattern groups with asymmetric precedence.
Above five words, a matching local pattern forces "local" even when cloud
patterns also match; at five words or fewer, any matching cloud pattern
forces "cloud" regardless of local matches. -/
theorem classify_precedence_asymmetry (text : List Char) :
    (5 < wordCount (pyStrip text) →
      anyLocalMatch ((pyStrip text).map Char.toLower) = true →
      anyCloudMatch ((pyStrip text).map Char.toLower) = true →
      classify text = "local")
    ∧ (wordCount (pyStrip text) ≤ 5 →
      anyCloudMatch ((pyStrip text).map Char.toLower) = true →
      classify text = "cloud") := by
  constructor
  · intro hwc hl _
    unfold classify
    by_cases ht : pyStrip text = []
    · rw [ht] at hwc
      exact absurd hwc (by decide)
    · rw [if_neg ht, if_neg (by omega : ¬ wordCount (pyStrip text) ≤ 5), if_pos hl]
  · intro hwc hc
    unfold classify
    by_cases ht : pyStrip text = []
    · rw [ht] at hc
      exact absurd hc (by decide)
    · rw [if_neg ht, if_pos hwc, if_pos hc]

/-- Witness: "explain what is the meaning of life" (7 words, matching both
`what is` and `explain`) routes local; "explain this please" (3 words,
matching `explain`) routes cloud. -/
theorem classify_precedence_asymmetry_witness :
    classify "explain what is the meaning of life".toList = "local"
    ∧ classify "explain this please".toList = "cloud" :=
  ⟨(classify_precedence_asymmetry "explain what is the meaning of life".toList).1
      (by decide) (by decide) (by decide),
   (classify_precedence_asymmetry "explain this please".toList).2
      (by decide) (by decide)⟩
/-- C5: the fragment sequence of the spec scenario flushes exactly the two
SpeakableUnits "Hello, world." and "Bye.", in that order. -/
theorem streaming_two_unit_flush :
    speakUnits ["Hello".toList, ", ".toList, "world".toList, ". ".toList,
        "Bye".toList, ".".toList]
      = ["Hello, world.".toList, "Bye.".toList] := by decide

/-- C3 counterexample: a router deciding "local" with no local function and a
configured cloud function yields no stream at all instead of falling back to
the cloud backend. -/
theorem router_local_unavailable_counterexample :
    c3Router.cloudFn.isSome = true ∧ c3Router.route "hello".toList = none := by
  exact ⟨rfl, rfl⟩

/-- C3 amended: the fallback is one-directional. A cloud decision with an
unconfigured cloud function falls back to the local stream; a configured
cloud function is used on a cloud decision; a non-cloud branch uses the local
function; and when the local function is unconfigured and the cloud branch is
not taken, `route` yields no stream rather than falling back to cloud. -/
theorem router_fallback_one_directional
    (r : QueryRouter) (text : List Char) (f g : List Char → List (List Char)) :
    (r.cloudFn = none → r.localFn = some f → r.route text = some (f text))
    ∧ (r.decideBackend text = "cloud" → r.cloudFn = some g →
        r.route text = some (g text))
    ∧ (r.localFn = none → (r.cloudFn = none ∨ r.decideBackend text ≠ "cloud") →
        r.route text = none) := by
  refine ⟨?_, ?_, ?_⟩
  · intro hc hl
    unfold QueryRouter.route
    split
    · simp_all
    · rw [hl]
  · intro hd hc
    unfold QueryRouter.route
    split
    · simp_all
    · simp_all
  · intro hl hnc
    unfold QueryRouter.route
    split
    · rcases hnc with h | h <;> simp_all
    · rw [hl]

/-- Witness: in hybrid mode with no cloud function, a cloud-classified prompt
still yields the local stream. -/
theorem router_fallback_one_directional_witness :
    c3Hybrid.route "explain this please".toList
      = some (c3LocalStream "explain this please".toList) :=
  (router_fallback_one_directional c3Hybrid "explain this please".toList
    c3LocalStream c3CloudStream).1 rfl rfl
lemma dropWhile_length_le (p : Char → Bool) (l : List Char) :
    (l.dropWhile p).length ≤ l.length := by
  induction l with
  | nil => simp
  | cons a l ih =>
    rw [List.dropWhile_cons]
    split
    · exact Nat.le_succ_of_le ih
    · exact Nat.le_refl _

lemma contains_of_lastCommaIdx (b : List Char) (j : ℕ) (h : lastCommaIdx b = some j) :
    b.contains ',' = true := by
  induction b generalizing j with
  | nil => simp [lastCommaIdx] at h
  | cons c rest ih =>
    rcases hr : lastCommaIdx rest with _ | i
    · rw [lastCommaIdx, hr] at h
      have hc : (c == ',') = true := by
        by_contra hcc
        simp only [Bool.not_eq_true] at hcc
        rw [hcc] at h
        simp at h
      have : c = ',' := beq_iff_eq.mp hc
      simp [List.contains_cons, this]
    · have := ih i hr
      simp only [List.contains_cons, Bool.or_eq_true]
      right
      exact this

lemma pyStrip_length_le (s : List Char) : (pyStrip s).length ≤ s.length := by
  unfold pyStrip
  calc ((s.dropWhile pyIsSpace).reverse.dropWhile pyIsSpace).reverse.length
      = ((s.dropWhile pyIsSpace).reverse.dropWhile pyIsSpace).length := by
        rw [List.length_reverse]
    _ ≤ (s.dropWhile pyIsSpace).reverse.length := dropWhile_length_le _ _
    _ = (s.dropWhile pyIsSpace).length := by rw [List.length_reverse]
    _ ≤ s.length := dropWhile_length_le _ _

lemma synthStep_eager (st : SynthSt) (chunk : List Char)
    (h1 : st.firstSent = false)
    (h2 : endsSentence (st.buffer ++ chunk) = false)
    (h3 : MIN_FIRST_CHUNK ≤ (st.buffer ++ chunk).length)
    (h4 : (st.buffer ++ chunk).contains ',' = true ∨ 40 ≤ (st.buffer ++ chunk).length)
    (h5 : pyStrip ((st.buffer ++ chunk).take (splitIdx (st.buffer ++ chunk))) ≠ []) :
    synthStep st chunk =
      ⟨pyStrip (((st.buffer ++ chunk).drop (splitIdx (st.buffer ++ chunk))).dropWhile
          (fun c => c == ',')),
        true,
        st.flushed ++ [pyStrip ((st.buffer ++ chunk).take (splitIdx (st.buffer ++ chunk)))]⟩ := by
  unfold synthStep
  rw [if_neg (by rw [h2]; exact Bool.false_ne_true)]
  rw [if_pos ⟨h1, h3⟩]
  rw [if_pos h4]
  rw [if_neg h5]
/-- C6 amended: before the first SpeakableUnit is flushed, a fragment that
brings the buffer to the minimum length with a comma present (or to the
40-character cap), while the buffer does not end in terminal punctuation
(that case flushes the whole buffer by the sentence rule) and the
whitespace-stripped prefix up to the split point is nonempty, makes
`speak_streaming` flush that stripped prefix — cut at the last comma, or the
whole buffer when there is no comma or the last comma sits before index
10 — and retain the remainder, its leading commas and whitespace stripped.
In particular a single fragment of 40 or more characters, not ending in
terminal punctuation and whose last comma sits at index 10, first flushes
the at-most-10-character stripped prefix before that comma rather than the
40-character fallback. -/
theorem eager_first_flush_rule :
    (∀ (st : SynthSt) (chunk : List Char),
      st.firstSent = false →
      endsSentence (st.buffer ++ chunk) = false →
      MIN_FIRST_CHUNK ≤ (st.buffer ++ chunk).length →
      ((st.buffer ++ chunk).contains ',' = true ∨ 40 ≤ (st.buffer ++ chunk).length) →
      pyStrip ((st.buffer ++ chunk).take (splitIdx (st.buffer ++ chunk))) ≠ [] →
      synthStep st chunk =
        ⟨pyStrip (((st.buffer ++ chunk).drop (splitIdx (st.buffer ++ chunk))).dropWhile
            (fun c => c == ',')),
          true,
          st.flushed ++ [pyStrip ((st.buffer ++ chunk).take (splitIdx (st.buffer ++ chunk)))]⟩)
    ∧ (∀ f : List Char,
        endsSentence f = false →
        40 ≤ f.length →
        lastCommaIdx f = some 10 →
        pyStrip (f.take 10) ≠ [] →
        (speakUnits [f]).head? = some (pyStrip (f.take 10))
        ∧ (pyStrip (f.take 10)).length ≤ 10) := by
  constructor
  · exact synthStep_eager
  · intro f hf1 hf2 hf3 hf4
    have h20 : MIN_FIRST_CHUNK ≤ f.length := by
      unfold MIN_FIRST_CHUNK
      omega
    have hsplit : splitIdx f = 10 := by
      unfold splitIdx
      rw [hf3]
      simp
    have hcont : f.contains ',' = true := contains_of_lastCommaIdx f 10 hf3
    have hstep := synthStep_eager ⟨[], false, []⟩ f rfl hf1 h20 (Or.inl hcont)
      (by rw [show (SynthSt.buffer ⟨[], false, []⟩ ++ f) = f from rfl, hsplit]; exact hf4)
    constructor
    · show (synthFinish (synthStep ⟨[], false, []⟩ f)).head? = _
      rw [hstep]
      unfold synthFinish
      rw [show (SynthSt.buffer ⟨[], false, []⟩ ++ f) = f from rfl, hsplit]
      split
      · simp
      · simp
    · have hl1 := pyStrip_length_le (f.take 10)
      have hl2 : (f.take 10).length ≤ 10 := by
        rw [List.length_take]
        omega
      omega

/-- C6 counterexample to the claim as stated: a 20-character buffer that
contains a comma at index 10 but ends in a period is flushed whole by the
sentence rule, not split at the comma as the eagerness clause alone would
dictate. -/
theorem eager_flush_sentence_precedence_counterexample :
    speakUnits ["0123456789,abcdefgh.".toList] = ["0123456789,abcdefgh.".toList]
    ∧ (speakUnits ["0123456789,abcdefgh.".toList]).head? ≠ some "0123456789".toList := by
  exact ⟨by decide, by decide⟩

/-- Witness for the amended eagerness rule on a concrete 44-character
fragment with its only comma at index 10. -/
theorem eager_first_flush_rule_witness :
    synthStep ⟨[], false, []⟩ "0123456789,abcdefghijklmnopqrstuvwxyzABCDEF".toList =
      ⟨pyStrip ((("0123456789,abcdefghijklmnopqrstuvwxyzABCDEF".toList).drop
            (splitIdx ("0123456789,abcdefghijklmnopqrstuvwxyzABCDEF".toList))).dropWhile
          (fun c => c == ',')),
        true,
        [] ++ [pyStrip (("0123456789,abcdefghijklmnopqrstuvwxyzABCDEF".toList).take
          (splitIdx ("0123456789,abcdefghijklmnopqrstuvwxyzABCDEF".toList)))]⟩
    ∧ (speakUnits ["0123456789,abcdefghijklmnopqrstuvwxyzABCDEF".toList]).head?
        = some (pyStrip ("0123456789,abcdefghijklmnopqrstuvwxyzABCDEF".toList.take 10)) :=
  ⟨eager_first_flush_rule.1 ⟨[], false, []⟩ "0123456789,abcdefghijklmnopqrstuvwxyzABCDEF".toList
      rfl (by decide) (by decide) (by decide) (by decide),
   ((eager_first_flush_rule.2 "0123456789,abcdefghijklmnopqrstuvwxyzABCDEF".toList
      (by decide) (by decide) (by decide) (by decide)).1)⟩
lemma recGo_silence_count (thr : ℚ) (needed maxChunks : ℕ) :
    ∀ (sil : List ℚ) (st : RecSt),
      st.speech = true → (∀ x ∈ sil, x ≤ thr) →
      st.silence < needed → needed ≤ st.silence + sil.length →
      st.cnt + (needed - st.silence) ≤ maxChunks →
      (recGo thr needed maxChunks st sil).2.length = needed - st.silence := by
  intro sil
  induction sil with
  | nil =>
    intro st _ _ hlt hle _
    simp only [List.length_nil, Nat.add_zero] at hle
    omega
  | cons rms rest ih =>
    intro st hsp hall hlt hle hmax
    obtain ⟨cnt, silct, sp⟩ := st
    simp only at hsp hlt hle hmax
    subst hsp
    simp only [List.length_cons] at hle
    have hrms : ¬ thr < rms := not_lt.mpr (hall rms (List.mem_cons_self _ _))
    have hm : ¬ maxChunks ≤ cnt := by omega
    simp only [recGo, if_neg hm, if_neg hrms, true_and]
    by_cases hstop : needed ≤ silct + 1
    · rw [if_pos hstop]
      simp only [List.length_cons, List.length_nil]
      omega
    · rw [if_neg hstop]
      simp only [List.length_cons]
      have hrec := ih ⟨cnt + 1, silct + 1, true⟩ rfl
        (fun x hx => hall x (List.mem_cons_of_mem _ hx))
        (by simp only; omega)
        (by simp only; omega)
        (by simp only; omega)
      simp only at hrec
      rw [hrec]
      omega

lemma silence_duration_bounds (D R B : ℚ) (hR : 0 < R) (hB : 0 < B) (hD : 0 ≤ D) :
    D - B / R < (silenceChunksNeeded D R B : ℚ) * (B / R)
    ∧ (silenceChunksNeeded D R B : ℚ) * (B / R) ≤ D := by
  have hx : (0 : ℚ) ≤ D * (R / B) := by positivity
  have hcast : ((silenceChunksNeeded D R B : ℕ) : ℚ) = ((⌊D * (R / B)⌋ : ℤ) : ℚ) := by
    unfold silenceChunksNeeded
    exact_mod_cast congrArg (Int.cast : ℤ → ℚ)
      (Int.toNat_of_nonneg (Int.floor_nonneg.mpr hx))
  have hBR : (0 : ℚ) < B / R := by positivity
  have h1 : ((⌊D * (R / B)⌋ : ℤ) : ℚ) ≤ D * (R / B) := Int.floor_le _
  have h2 : D * (R / B) - 1 < ((⌊D * (R / B)⌋ : ℤ) : ℚ) := Int.sub_one_lt_floor _
  have hcancel : D * (R / B) * (B / R) = D := by
    field_simp
  constructor
  · rw [hcast]
    calc D - B / R = (D * (R / B) - 1) * (B / R) := by
          rw [sub_mul, hcancel, one_mul]
      _ < ((⌊D * (R / B)⌋ : ℤ) : ℚ) * (B / R) := mul_lt_mul_of_pos_right h2 hBR
  · rw [hcast]
    calc ((⌊D * (R / B)⌋ : ℤ) : ℚ) * (B / R) ≤ D * (R / B) * (B / R) :=
          mul_le_mul_of_nonneg_right h1 (le_of_lt hBR)
      _ = D := hcancel

/-- C8: once a frame exceeded the threshold (speech heard) and the silence
run is fresh, `record_audio` ends the utterance after consuming exactly
`int(D * R/B)` further consecutive below-threshold chunks, and the silence
duration this represents lies in the half-open interval `(D - B/R, D]`:
within one frame-period of the configured D seconds. -/
theorem silence_endpoint_timing
    (D R B thr : ℚ) (maxChunks : ℕ) (st : RecSt) (sil : List ℚ)
    (hR : 0 < R) (hB : 0 < B) (hD : 0 ≤ D)
    (hsp : st.speech = true) (hs0 : st.silence = 0)
    (hall : ∀ x ∈ sil, x ≤ thr)
    (hpos : 0 < silenceChunksNeeded D R B)
    (hlen : silenceChunksNeeded D R B ≤ sil.length)
    (hmax : st.cnt + silenceChunksNeeded D R B ≤ maxChunks) :
    (recGo thr (silenceChunksNeeded D R B) maxChunks st sil).2.length
      = silenceChunksNeeded D R B
    ∧ D - B / R < (silenceChunksNeeded D R B : ℚ) * (B / R)
    ∧ (silenceChunksNeeded D R B : ℚ) * (B / R) ≤ D := by
  have hb := silence_duration_bounds D R B hR hB hD
  refine ⟨?_, hb.1, hb.2⟩
  have hcount := recGo_silence_count thr (silenceChunksNeeded D R B) maxChunks sil st
    hsp hall (by omega) (by omega) (by omega)
  simpa [hs0] using hcount

/-- Witness at the pipeline's configured constants: D = 0.5 s, R = 16000 Hz,
B = 1024 gives 7 required silence chunks, consumed exactly, with duration
0.448 s inside (0.436 s, 0.5 s]. -/
theorem silence_endpoint_timing_witness :
    (recGo SILENCE_THRESHOLD (silenceChunksNeeded SILENCE_DURATION SAMPLE_RATE BLOCK_SIZE) 468
        ⟨1, 0, true⟩ (List.replicate 7 0)).2.length
      = silenceChunksNeeded SILENCE_DURATION SAMPLE_RATE BLOCK_SIZE
    ∧ SILENCE_DURATION - BLOCK_SIZE / SAMPLE_RATE
        < (silenceChunksNeeded SILENCE_DURATION SAMPLE_RATE BLOCK_SIZE : ℚ)
          * (BLOCK_SIZE / SAMPLE_RATE)
    ∧ (silenceChunksNeeded SILENCE_DURATION SAMPLE_RATE BLOCK_SIZE : ℚ)
          * (BLOCK_SIZE / SAMPLE_RATE)
        ≤ SILENCE_DURATION := by
  have h7 : silenceChunksNeeded SILENCE_DURATION SAMPLE_RATE BLOCK_SIZE = 7 := by
    norm_num [silenceChunksNeeded, SILENCE_DURATION, SAMPLE_RATE, BLOCK_SIZE]
    rfl
  exact silence_endpoint_timing SILENCE_DURATION SAMPLE_RATE BLOCK_SIZE SILENCE_THRESHOLD 468
    ⟨1, 0, true⟩ (List.replicate 7 0)
    (by norm_num [SAMPLE_RATE]) (by norm_num [BLOCK_SIZE]) (by norm_num [SILENCE_DURATION])
    rfl rfl
    (fun x hx => by rw [List.eq_of_mem_replicate hx]; norm_num [SILENCE_THRESHOLD])
    (by rw [h7]; norm_num)
    (by rw [h7]; simp)
    (by rw [h7]; norm_num)
lemma drive_done (s : MState) (hd : s.core.loc = Loc.done) :
    ∀ l : List Input, drive s l = s := by
  intro l
  induction l with
  | nil => rfl
  | cons i l ih =>
    have hstep : stepM s i = s := by
      unfold stepM coreStep
      rw [hd]
      simp [hd]
    show drive (stepM s i) l = s
    rw [hstep]
    exact ih

/-- C1 amended: in every reachable state a microphone frame has at most one
active consumer. The wake scorer consumes only when the detector stream is
open and its active event set; the recording stream consumes only when open,
which happens only inside `record_audio` in the `LISTENING` state, and then
the detector is paused — so the two consumers are never simultaneously
active, even though on the no-speech and `finally` paths the detector is
briefly resumed before `_state` switches back to `WAITING`. -/
theorem frame_routing_mutual_exclusion (s : MState) (h : Reachable s) :
    ¬(s.core.useWake = true ∧ s.core.wakeStream = true ∧ s.core.wakeActive = true
        ∧ s.core.recOpen = true)
    ∧ (s.core.recOpen = true → s.core.st = PipState.LISTENING)
    ∧ (s.core.recOpen = true → s.core.useWake = true → s.core.wakeActive = false) := by
  have hi := invB_reachable s h
  rcases s with ⟨⟨loc, st, run, uw, wa, ws, ro⟩, tr⟩
  simp only at hi ⊢
  cases loc <;> cases st <;> cases run <;> cases uw <;> cases wa <;> cases ws <;> cases ro <;>
    first
      | exact absurd hi (by decide)
      | decide

/-- Witness at the initial wake-mode state. -/
theorem frame_routing_mutual_exclusion_witness :
    ¬((minit true).core.useWake = true ∧ (minit true).core.wakeStream = true
        ∧ (minit true).core.wakeActive = true ∧ (minit true).core.recOpen = true)
    ∧ ((minit true).core.recOpen = true → (minit true).core.st = PipState.LISTENING)
    ∧ ((minit true).core.recOpen = true → (minit true).core.useWake = true →
        (minit true).core.wakeActive = false) :=
  frame_routing_mutual_exclusion (minit true) ⟨true, [], rfl⟩

/-- C1 counterexample to the claim as stated: on the no-speech path the
detector is resumed by `resume()` while `_state` is still `LISTENING`, so a
reachable moment exists outside the wake-waiting state in which the detector
is scoring (stream open, active event set). -/
theorem frame_routing_pause_claim_counterexample :
    Reachable pausedResumeGap
    ∧ pausedResumeGap.core.st = PipState.LISTENING
    ∧ pausedResumeGap.core.wakeActive = true
    ∧ pausedResumeGap.core.wakeStream = true :=
  ⟨⟨true, [Input.wake true, Input.tick, Input.tick, Input.record false], rfl⟩,
    by decide, by decide, by decide⟩

/-- C2: an exception inside `process_query` is caught by the reporting
`except` block, after which the `finally` block restores the pipeline —
in wake mode the detector is resumed and the state returns to `WAITING`,
without it the state returns to `LISTENING` — with the loop still running at
its head and no further transcription having happened, so future utterances
are served. -/
theorem utterance_error_recovery (s : MState) (h : Reachable s)
    (hp : s.core.loc = Loc.processing) :
    (stepM s (Input.proc false)).core.loc = Loc.caught
    ∧ (s.core.useWake = true →
        drive s [Input.proc false, Input.tick, Input.tick, Input.tick] =
          ⟨⟨Loc.top, PipState.WAITING, true, true, true, true, false⟩, s.transcripts⟩)
    ∧ (s.core.useWake = false →
        drive s [Input.proc false, Input.tick, Input.tick] =
          ⟨⟨Loc.top, PipState.LISTENING, true, false, s.core.wakeActive, false, false⟩,
            s.transcripts⟩) := by
  have hi := invB_reachable s h
  rcases s with ⟨⟨loc, st, run, uw, wa, ws, ro⟩, tr⟩
  simp only at hi hp ⊢
  subst hp
  cases st <;> cases run <;> cases uw <;> cases wa <;> cases ws <;> cases ro <;>
    first
      | exact absurd hi (by decide)
      | (refine ⟨rfl, fun hh => ?_, fun hh => ?_⟩ <;>
          first
            | exact absurd hh (by decide)
            | rfl)

/-- Witness at a concrete reachable processing state in wake mode. -/
theorem utterance_error_recovery_witness :
    (stepM procReach (Input.proc false)).core.loc = Loc.caught
    ∧ (procReach.core.useWake = true →
        drive procReach [Input.proc false, Input.tick, Input.tick, Input.tick] =
          ⟨⟨Loc.top, PipState.WAITING, true, true, true, true, false⟩, procReach.transcripts⟩)
    ∧ (procReach.core.useWake = false →
        drive procReach [Input.proc false, Input.tick, Input.tick] =
          ⟨⟨Loc.top, PipState.LISTENING, true, false, procReach.core.wakeActive, false, false⟩,
            procReach.transcripts⟩) :=
  utterance_error_recovery procReach
    ⟨true, [Input.wake true, Input.tick, Input.tick, Input.record true, Input.tick], rfl⟩
    (by decide)

/-- C4 amended: an interrupt delivered while the pipeline is in `LISTENING`
(at the loop head or while recording) ends the loop immediately: the handler
closes the streams and stops the detector without invoking transcription,
and the detector's pause flag stays cleared — the gate is left paused, not
resumed. -/
theorem interrupt_in_listening_shutdown (s : MState) (h : Reachable s)
    (hw : s.core.useWake = true) (hst : s.core.st = PipState.LISTENING)
    (hloc : s.core.loc = Loc.recording ∨ s.core.loc = Loc.top) :
    (stepM s Input.intr).core.loc = Loc.done
    ∧ (stepM s Input.intr).core.running = false
    ∧ (stepM s Input.intr).core.wakeStream = false
    ∧ (stepM s Input.intr).core.wakeActive = false
    ∧ (stepM s Input.intr).transcripts = s.transcripts
    ∧ ∀ l : List Input, drive (stepM s Input.intr) l = stepM s Input.intr := by
  have hi := invB_reachable s h
  rcases s with ⟨⟨loc, st, run, uw, wa, ws, ro⟩, tr⟩
  simp only at hi hw hst hloc ⊢
  subst hw
  subst hst
  rcases hloc with hl | hl <;> subst hl <;>
    cases run <;> cases wa <;> cases ws <;> cases ro <;>
    first
      | exact absurd hi (by decide)
      | exact ⟨rfl, rfl, rfl, rfl, rfl, drive_done _ rfl⟩

/-- Witness at a concrete reachable recording state. -/
theorem interrupt_in_listening_shutdown_witness :
    (stepM listenAbort Input.intr).core.loc = Loc.done
    ∧ (stepM listenAbort Input.intr).core.running = false
    ∧ (stepM listenAbort Input.intr).core.wakeStream = false
    ∧ (stepM listenAbort Input.intr).core.wakeActive = false
    ∧ (stepM listenAbort Input.intr).transcripts = listenAbort.transcripts
    ∧ ∀ l : List Input, drive (stepM listenAbort Input.intr) l = stepM listenAbort Input.intr :=
  interrupt_in_listening_shutdown listenAbort
    ⟨true, [Input.wake true, Input.tick, Input.tick], rfl⟩
    (by decide) (by decide) (Or.inl (by decide))

/-- C4 counterexample to the claim as stated: after an interrupt lands while
listening (mid-recording), the wake detector is left with its active event
cleared — paused, not resumed — once shutdown completes. -/
theorem interrupt_leaves_gate_paused_counterexample :
    Reachable listenAbort
    ∧ listenAbort.core.st = PipState.LISTENING
    ∧ listenAbort.core.useWake = true
    ∧ listenAbortEnd.core.loc = Loc.done
    ∧ listenAbortEnd.core.wakeActive = false :=
  ⟨⟨true, [Input.wake true, Input.tick, Input.tick], rfl⟩,
    by decide, by decide, by decide, by decide⟩
